/-
  Verification of the email-ingestion and address-lifecycle subsystem of the
  disposable-email service (Express/MySQL source, several historical revisions).
  All definitions are computable and the concrete evaluations go through the
  kernel, which needs a larger recursion budget than the default.

  The JavaScript string operations used by the code (String.prototype.split,
  trim, includes, the specific regular expressions appearing in the source) are
  embedded over `List Char`, and each route handler is embedded as a pure
  state-passing function over an explicit database value.
-/
import Mathlib

set_option maxRecDepth 40000

namespace EmailSvc

/-! ## JS character classes -/

/-- JS regexp `\s` whitespace class (also the class used by `String.prototype.trim`). -/
def jsWhite (c : Char) : Bool :=
  c = ' ' || c = '\t' || c = '\n' || c.toNat = 11 || c.toNat = 12 || c = '\r' ||
  c.toNat = 0xA0 || c.toNat = 0x1680 || (0x2000 ≤ c.toNat && c.toNat ≤ 0x200A) ||
  c.toNat = 0x2028 || c.toNat = 0x2029 || c.toNat = 0x202F || c.toNat = 0x205F ||
  c.toNat = 0x3000 || c.toNat = 0xFEFF

/-- JS line terminators (the characters `.` does not match). -/
def jsLineTerm (c : Char) : Bool :=
  c = '\n' || c = '\r' || c.toNat = 0x2028 || c.toNat = 0x2029

/-- The character class `[\w-]` from the header-line regexp. -/
def wordDash (c : Char) : Bool :=
  c.isAlpha || c.isDigit || c = '_' || c = '-'

/-! ## JS string primitives over `List Char` -/

/-- JS `String.prototype.includes`: `t` occurs as a contiguous substring of `s`. -/
def jsIncludes (s t : List Char) : Bool :=
  s.tails.any (fun suf => t.isPrefixOf suf)

/-- First occurrence of `sep` in `s`: returns the part before and the part after. -/
def findSep (sep : List Char) : List Char → Option (List Char × List Char)
  | [] => if sep.isPrefixOf ([] : List Char) then some ([], []) else none
  | c :: cs =>
    if sep.isPrefixOf (c :: cs) then some ([], (c :: cs).drop sep.length)
    else match findSep sep cs with
      | some (p, q) => some (c :: p, q)
      | none => none

/-- Fuel-indexed worker for JS `String.prototype.split` with a string separator. -/
def jsSplitAux (sep : List Char) : Nat → List Char → List (List Char)
  | 0, s => [s]
  | fuel + 1, s =>
    match findSep sep s with
    | none => [s]
    | some (p, q) => p :: jsSplitAux sep fuel q

/-- JS `String.prototype.split` with a (nonempty) string separator. -/
def jsSplit (sep s : List Char) : List (List Char) :=
  jsSplitAux sep (s.length + 1) s

/-- JS `Array.prototype.join` with a string separator. -/
def jsJoin (sep : List Char) : List (List Char) → List Char
  | [] => []
  | [x] => x
  | x :: y :: t => x ++ sep ++ jsJoin sep (y :: t)

/-- Drop leading JS whitespace. -/
def jsTrimLeft : List Char → List Char
  | [] => []
  | c :: r => if jsWhite c then jsTrimLeft r else c :: r

/-- JS `String.prototype.trim`. -/
def jsTrim (s : List Char) : List Char :=
  ((jsTrimLeft ((jsTrimLeft s).reverse)).reverse)

/-- JS `str.replace(/\n/g, sub)` specialised to a fixed replacement. -/
def jsReplaceNl (sub : List Char) : List Char → List Char
  | [] => []
  | c :: r => if c = '\n' then sub ++ jsReplaceNl sub r else c :: jsReplaceNl sub r

/-- ASCII lower-casing of a character list (header names are `[\w-]+`, hence ASCII). -/
def lowerList (s : List Char) : List Char :=
  s.map Char.toLower

/-- JS `a || b` on an optional string field: `undefined` and `''` both fall through. -/
def jsOr (o : Option (List Char)) (d : List Char) : List Char :=
  match o with
  | some v => if v = [] then d else v
  | none => d

/-! ## Named string constants used by the parser (its regexps and separators) -/

/-- The blank-line separator the parser splits on. -/
def dsep : List Char := ("\n\n").data

/-- The newline separator for header lines. -/
def nlsep : List Char := ("\n").data

/-- The literal `boundary=` of the boundary-extraction regexp. -/
def boundKw : List Char := ("boundary=").data

/-- The (lower-cased) literal of the part-header `Content-Type:` regexp. -/
def ctColon : List Char := ("content-type:").data

/-- The `content-type` header key. -/
def ctKey : List Char := ("content-type").data

/-- The default content type. -/
def tplain : List Char := ("text/plain").data

/-- The double dash used by the section filter and the terminal marker. -/
def ddash : List Char := ("--").data

/-- Content-type fragment `text/html`. -/
def htmlTag : List Char := ("text/html").data

/-- Content-type fragment `image/`. -/
def imgTag : List Char := ("image/").data

/-- Content-type fragment `application/`. -/
def appTag : List Char := ("application/").data

/-- The `<br>` replacement string of the HTML fallback. -/
def brTag : List Char := ("<br>").data

/-! ## MimeParser: `parseEmailContent` from `src/src/routes/webhook.js` (lines 125-196)

The embedding follows the source line by line; JS regexp semantics (greedy
matching, `.` excluding line terminators, scanning start positions left to
right) are spelled out explicitly. -/

/-- One parsed part: the code pushes objects with exactly the fields
`contentType` and `content` (no `filename` field in this revision). -/
structure Part where
  contentType : List Char
  content : List Char
deriving DecidableEq, Repr

/-- Result of `parseEmailContent`: headers as a JS-object association list
(insertion order, first-key wins on lookup) plus the list of parts. -/
structure ParseResult where
  headers : List (List Char × List Char)
  parts : List Part
deriving DecidableEq, Repr

/-- Lookup in the JS-object model. -/
def getKey : List (List Char × List Char) → List Char → Option (List Char)
  | [], _ => none
  | (k0, v0) :: rest, k => if k0 = k then some v0 else getKey rest k

/-- `obj[k] = v` in the JS-object model. -/
def setKey : List (List Char × List Char) → List Char → List Char → List (List Char × List Char)
  | [], k, v => [(k, v)]
  | (k0, v0) :: rest, k, v =>
    if k0 = k then (k0, v) :: rest else (k0, v0) :: setKey rest k v

/-- `obj[k] += v` in the JS-object model (the continuation-line case; the key
is always present when it is reached). -/
def addKey : List (List Char × List Char) → List Char → List Char → List (List Char × List Char)
  | [], k, v => [(k, v)]
  | (k0, v0) :: rest, k, v =>
    if k0 = k then (k0, v0 ++ v) :: rest else (k0, v0) :: addKey rest k v

/-- JS `line.match(/^([\w-]+):\s*(.*)$/)`: the name is the maximal leading
`[\w-]` run, which must be nonempty and followed by `:`; `\s*` greedily eats
whitespace; `(.*)` takes the rest, which must contain no line terminator. -/
def matchHeaderLine (line : List Char) : Option (List Char × List Char) :=
  let name := line.takeWhile wordDash
  match name, line.drop name.length with
  | [], _ => none
  | _ :: _, ':' :: rest =>
    let value := rest.dropWhile jsWhite
    if value.any jsLineTerm then none else some (name, value)
  | _ :: _, _ => none

/-- The header-accumulation loop (`headerLines.forEach` with `currentHeader`). -/
def parseHeadersAux : List (List Char) → List Char →
    List (List Char × List Char) → List (List Char × List Char)
  | [], _, acc => acc
  | line :: rest, cur, acc =>
    if line.head? = some ' ' ∧ cur ≠ [] then
      parseHeadersAux rest cur (addKey acc cur (jsTrim line))
    else
      match matchHeaderLine line with
      | some (name, value) =>
        let k := lowerList name
        parseHeadersAux rest k (setKey acc k value)
      | none => parseHeadersAux rest cur acc

/-- One attempt of `/boundary="?([^";\s]+)"?/` at the current start position. -/
def tryBoundaryAt (s : List Char) : Option (List Char) :=
  if boundKw.isPrefixOf s then
    let after := s.drop boundKw.length
    let afterQ := if after.head? = some '"' then after.tail else after
    let run := afterQ.takeWhile (fun c => !(c = '"' || c = ';' || jsWhite c))
    if run = [] then none else some run
  else none

/-- JS `contentType.match(/boundary="?([^";\s]+)"?/)`: scan start positions
left to right, return the first successful capture. -/
def findBoundary : List Char → Option (List Char)
  | [] => none
  | c :: rest =>
    match tryBoundaryAt (c :: rest) with
    | some b => some b
    | none => findBoundary rest

/-- Case-insensitive literal prefix test (for the `/i` regexp flag). -/
def ciStartsWith (s pat : List Char) : Bool :=
  lowerList (s.take pat.length) = pat

/-- Backtracking of `\s*([^;\n]+)` after `Content-Type:`: `p` counts how much
whitespace `\s*` keeps; the first position (from the greedy maximum downward)
holding a character other than `;` and newline starts the capture. -/
def msFind (rest : List Char) : Nat → Option (List Char)
  | 0 =>
    match rest.head? with
    | some c =>
      if c = ';' ∨ c = '\n' then none
      else some (rest.takeWhile (fun d => !(d = ';' || d = '\n')))
    | none => none
  | p + 1 =>
    match (rest.drop (p + 1)).head? with
    | some c =>
      if c = ';' ∨ c = '\n' then msFind rest p
      else some ((rest.drop (p + 1)).takeWhile (fun d => !(d = ';' || d = '\n')))
    | none => msFind rest p

/-- One attempt of `/Content-Type:\s*([^;\n]+)/i` at the current start position. -/
def matchContentTypeAt (s : List Char) : Option (List Char) :=
  if ciStartsWith s ctColon then
    let rest := s.drop ctColon.length
    msFind rest (rest.takeWhile jsWhite).length
  else none

/-- JS `partHeaders.match(/Content-Type:\s*([^;\n]+)/i)`: scan start positions
left to right, return the first successful capture. -/
def matchContentType : List Char → Option (List Char)
  | [] => none
  | c :: rest =>
    match matchContentTypeAt (c :: rest) with
    | some v => some v
    | none => matchContentType rest

/-- The body of the `multipartSections.forEach` callback: a section becomes a
part only if its trimmed form is nonempty, it contains no occurrence of `--`
anywhere, and its header block matches `Content-Type`. -/
def sectionToPart (sec : List Char) : Option Part :=
  if jsTrim sec = [] ∨ jsIncludes sec ddash = true then none
  else
    let pieces := jsSplit dsep (jsTrim sec)
    let partHeaders := pieces.headD []
    let partContent := pieces.tail
    match matchContentType partHeaders with
    | some ct => some ⟨jsTrim ct, jsTrim (jsJoin dsep partContent)⟩
    | none => none

/-- `parseEmailContent` over a string input (the `try` block never throws on a
string, so the catch-all fallback of the source is unreachable here). -/
def parseEmailContent (raw : List Char) : ParseResult :=
  let pieces := jsSplit dsep raw
  let headerBlock := pieces.headD []
  let bodyParts := pieces.tail
  let headerLines := jsSplit nlsep headerBlock
  let parsedHeaders := parseHeadersAux headerLines [] []
  let contentType := jsOr (getKey parsedHeaders ctKey) []
  match findBoundary contentType with
  | some b =>
    let bodyContent := jsJoin dsep bodyParts
    let sections := jsSplit (('-' :: '-' :: []) ++ b) bodyContent
    ⟨parsedHeaders, sections.filterMap sectionToPart⟩
  | none =>
    ⟨parsedHeaders, [⟨jsOr (getKey parsedHeaders ctKey) tplain, jsJoin dsep bodyParts⟩]⟩

/-! ## ContentClassifier: the part-classification loop of the webhook handler
(`src/src/routes/webhook.js` lines 217-233) -/

/-- One attachment object pushed by the loop (fields `contentType`, `content`). -/
structure AttPart where
  contentType : List Char
  content : List Char
deriving DecidableEq, Repr

/-- The `emailData` accumulator fields touched by the loop. -/
structure EmailData where
  htmlContent : List Char
  textContent : List Char
  attachments : List AttPart
deriving DecidableEq, Repr

/-- A part the loop treats as HTML: content type contains `text/html`. -/
def isHtmlPart (p : Part) : Bool :=
  jsIncludes p.contentType htmlTag

/-- A part the loop treats as plain text: not HTML, content type contains
`text/plain`. -/
def isPlainPart (p : Part) : Bool :=
  !(isHtmlPart p) && jsIncludes p.contentType tplain

/-- A part the loop treats as an attachment: neither HTML nor plain, and the
content type contains `image/` or `application/` (a substring test in the
source, not a prefix test). -/
def isAttachPart (p : Part) : Bool :=
  !(isHtmlPart p) && !(jsIncludes p.contentType tplain) &&
    (jsIncludes p.contentType imgTag || jsIncludes p.contentType appTag)

/-- One iteration of `parsedEmail.parts.forEach`: each assignment overwrites
the previous value of the same field. -/
def classStep (d : EmailData) (p : Part) : EmailData :=
  if jsIncludes p.contentType htmlTag then
    { d with htmlContent := p.content }
  else if jsIncludes p.contentType tplain then
    { d with textContent := p.content }
  else if jsIncludes p.contentType imgTag || jsIncludes p.contentType appTag then
    { d with attachments := d.attachments ++ [⟨p.contentType, p.content⟩] }
  else d

/-- The whole classification loop, starting from the empty `emailData`. -/
def classifyParts (parts : List Part) : EmailData :=
  parts.foldl classStep ⟨[], [], []⟩

/-- The HTML fallback: `if (!emailData.htmlContent && emailData.textContent)
htmlContent = textContent.replace(/\n/g, '<br>')`. -/
def withHtmlFallback (d : EmailData) : EmailData :=
  if d.htmlContent = [] ∧ d.textContent ≠ [] then
    { d with htmlContent := jsReplaceNl brTag d.textContent }
  else d

/-- The content of the last element of a part list satisfying nothing further
(or a default) — used to state what the overwrite loop computes. -/
def lastContentD : List Part → List Char → List Char
  | [], dflt => dflt
  | p :: rest, _ => lastContentD rest p.content

/-! ## Recipient cleaning (`src/src/routes/webhook.js` lines 249-252) -/

/-- One attempt of `(.+)>` after a `<` was found: `(.+)` greedily extends over
non-terminator characters, then backtracks to the last `>` leaving a nonempty
capture. -/
def tryAngleAt (rest : List Char) : Option (List Char) :=
  let run := rest.takeWhile (fun c => !(jsLineTerm c))
  match run.reverse.dropWhile (fun c => !(c = '>')) with
  | _ :: tailRev =>
    match tailRev with
    | [] => none
    | _ :: _ => some tailRev.reverse
  | [] => none

/-- JS `recipient.match(/<(.+)>/)`: scan for a `<` whose attempt succeeds;
returns the first capture, or `none` when the whole match fails. -/
def jsMatchAngle : List Char → Option (List Char)
  | [] => none
  | c :: rest =>
    if c = '<' then
      match tryAngleAt rest with
      | some v => some v
      | none => jsMatchAngle rest
    else jsMatchAngle rest

/-- `recipient.includes('<') ? recipient.match(/<(.+)>/)[1] : recipient.trim()`.
`none` models the `TypeError` thrown when the match is `null` and `[1]` is
dereferenced. -/
def cleanRecipient (r : List Char) : Option (List Char) :=
  if jsIncludes r (('<') :: []) then jsMatchAngle r
  else some (jsTrim r)

/-! ## Database model

Rows of the three tables touched by ingestion and address creation, with the
`UNIQUE` constraint on `temp_emails.email` from the schema in the source.
Time is in milliseconds; `expires_at > NOW()` becomes `now < expiresAt`. -/

/-- A `temp_emails` row (`id, email, domain_id, expires_at`). -/
structure TempRow where
  id : String
  email : List Char
  domainId : String
  expiresAt : Nat
deriving DecidableEq, Repr

/-- A `received_emails` row of the transactional revision. -/
structure MsgRow where
  id : String
  tempEmailId : String
  fromEmail : Option (List Char)
  subject : List Char
  bodyHtml : List Char
  bodyText : List Char
deriving DecidableEq, Repr

/-- An `email_attachments` row of the transactional revision. -/
structure AttRow where
  id : String
  emailId : String
  contentType : List Char
  content : List Char
deriving DecidableEq, Repr

/-- The persistent store visible to readers. -/
structure Db where
  tempEmails : List TempRow
  messages : List MsgRow
  attachments : List AttRow
deriving DecidableEq, Repr

/-- The `expires_at > NOW()` liveness filter on an email. -/
def liveFor (e : List Char) (now : Nat) (r : TempRow) : Bool :=
  decide (r.email = e ∧ now < r.expiresAt)

/-! ## IngestionCoordinator: the message + attachment writes

`src/src/routes/webhook.js` lines 273-330 (transactional revision) and
`src/unnamed/part_005` lines 52-74 (non-transactional revision). Insert
failures are modelled by oracles `msgOk` (the message `INSERT`) and `attOk i`
(the `i`-th attachment `INSERT`); a `false` outcome is the storage engine
throwing on that statement. -/

/-- Transactional ingestion (`beginTransaction` … `commit` / `rollback`):
on any insert failure the transaction rolls back, the store is unchanged and
the handler answers 500; on success both the message and every attachment are
committed together. -/
def ingestTxn (db : Db) (m : MsgRow) (atts : List AttRow) (msgOk : Bool)
    (attOk : Nat → Bool) : Db × Nat :=
  if msgOk then
    match runAttsFrom { db with messages := db.messages ++ [m] } atts attOk 0 with
    | some working => (working, 200)
    | none => (db, 500)
  else (db, 500)
where
  /-- The attachment-insert loop on the uncommitted working copy. -/
  runAttsFrom (working : Db) : List AttRow → (Nat → Bool) → Nat → Option Db
    | [], _, _ => some working
    | a :: rest, ok, i =>
      if ok i then
        runAttsFrom { working with attachments := working.attachments ++ [a] } rest ok (i + 1)
      else none

/-- Non-transactional ingestion (plain `pool.query` statements, each
auto-committed): a failing attachment insert surfaces 500 but the message row
and all earlier attachment rows stay in the store. -/
def ingestNoTxn (db : Db) (m : MsgRow) (atts : List AttRow) (msgOk : Bool)
    (attOk : Nat → Bool) : Db × Nat :=
  if msgOk then
    go { db with messages := db.messages ++ [m] } atts attOk 0
  else (db, 500)
where
  /-- Attachment inserts applied directly to the shared store. -/
  go (cur : Db) : List AttRow → (Nat → Bool) → Nat → Db × Nat
    | [], _, _ => (cur, 200)
    | a :: rest, ok, i =>
      if ok i then
        go { cur with attachments := cur.attachments ++ [a] } rest ok (i + 1)
      else (cur, 500)

/-! ## The full webhook handler of the transactional revision
(`src/src/routes/webhook.js` lines 198-340)

Extraction order of the source: parse the raw `body` field, classify parts,
apply the HTML fallback, reject a falsy recipient with 400, clean the
recipient (which can throw), look up the live address (404 when absent), then
run the transactional write. The outer `catch` maps any thrown error to 500
with the store unchanged up to that point. -/

/-- The handler's response paired with the store it leaves behind. -/
def webhookHandler (recipient sender subject : Option (List Char))
    (rawBody : List Char) (db : Db) (now : Nat) (msgId : String)
    (atts : List AttRow) (msgOk : Bool) (attOk : Nat → Bool) : Nat × Db :=
  let parsed := parseEmailContent rawBody
  let d0 := classifyParts parsed.parts
  let d1 := withHtmlFallback d0
  match recipient with
  | none => (400, db)
  | some r =>
    if r = [] then (400, db)
    else
      match cleanRecipient r with
      | none => (500, db)
      | some cr =>
        match (db.tempEmails.filter (liveFor cr now)).head? with
        | none => (404, db)
        | some t =>
          let subj := jsOr subject (jsOr (getKey parsed.headers (("subject").data))
            (("No Subject").data))
          let m : MsgRow := ⟨msgId, t.id, sender, subj, d1.htmlContent, d1.textContent⟩
          let (db2, status) := ingestTxn db m atts msgOk attOk
          (status, db2)

/-! ## The silently-accepting webhook revision (`src/unnamed/part_003`)

`verifyWebhookSignature(req)` is computed into `isValid` (line 60) and never
consulted again: the handler proceeds to store the message whatever the
verification result was. The extracted payload fields are parameters; the
verification result is the `sigValid` parameter. -/

/-- The `part_003` handler after field extraction: note that `sigValid` is
bound (mirroring `const isValid = …`) but the control flow never reads it. -/
def part003Handler (sigValid : Bool) (recipient : Option (List Char))
    (db : Db) (now : Nat) (m : MsgRow) (insOk : Bool) : Nat × Db :=
  let _isValid := sigValid
  match recipient with
  | none => (400, db)
  | some r =>
    if r = [] then (400, db)
    else
      match (db.tempEmails.filter (liveFor r now)).head? with
      | none => (404, db)
      | some _ =>
        if insOk then (200, { db with messages := db.messages ++ [m] })
        else (500, db)

/-! ## AddressLifecycleManager: `POST /emails/public/create`
(`src/src/routes/emails.js` lines 88-131)

Existence check on live rows, insert guarded by the schema's `UNIQUE(email)`
constraint, `ER_DUP_ENTRY` recovery that re-fetches by email *without* the
liveness filter. The 48-hour TTL of the public flow, in milliseconds. -/

/-- 48 hours in milliseconds (`expiresAt.setHours(expiresAt.getHours() + 48)`). -/
def ttl48 : Nat := 48 * 60 * 60 * 1000

/-- The sequential create-or-reuse operation. The second component is the row
sent in the response; `none` models the rethrown error path (unreachable when
a row with the email exists). -/
def createPublicEmail (db : List TempRow) (now : Nat) (e : List Char)
    (dom : String) (newId : String) : List TempRow × Option TempRow :=
  match (db.filter (liveFor e now)).head? with
  | some r => (db, some r)
  | none =>
    if db.any (fun r => decide (r.email = e)) then
      (db, (db.filter (fun r => decide (r.email = e))).head?)
    else
      let row : TempRow := ⟨newId, e, dom, now + ttl48⟩
      (db ++ [row], some row)

/-! ## Concurrent address creation

Two concurrent `POST /emails/public/create` calls for the same email, each
broken into its atomic storage statements (the liveness `SELECT`, the
`INSERT` guarded by `UNIQUE(email)`, the `SELECT … WHERE id = ?` after a
successful insert, and the duplicate-recovery `SELECT … WHERE email = ?`).
A schedule is a list of turns; each turn runs one statement of one call. -/

/-- Program counter of one in-flight creation call. -/
inductive CPc where
  | start
  | doInsert
  | fetchNew
  | refetch
  | done (res : Option TempRow)
deriving DecidableEq, Repr

/-- One atomic statement of a creation call with fresh id `myId`. -/
def threadStep (now : Nat) (e : List Char) (dom myId : String)
    (db : List TempRow) : CPc → List TempRow × CPc
  | .start =>
    match (db.filter (liveFor e now)).head? with
    | some r => (db, .done (some r))
    | none => (db, .doInsert)
  | .doInsert =>
    if db.any (fun r => decide (r.email = e)) then (db, .refetch)
    else (db ++ [⟨myId, e, dom, now + ttl48⟩], .fetchNew)
  | .fetchNew => (db, .done ((db.filter (fun r => decide (r.id = myId))).head?))
  | .refetch => (db, .done ((db.filter (fun r => decide (r.email = e))).head?))
  | .done r => (db, .done r)

/-- Joint state of the store and the two calls. -/
structure SysState where
  db : List TempRow
  pcA : CPc
  pcB : CPc
deriving DecidableEq, Repr

/-- Run one turn: `true` advances call A (fresh id `idA`), `false` call B. -/
def sysStep (now : Nat) (e : List Char) (dom idA idB : String)
    (s : SysState) (turn : Bool) : SysState :=
  if turn then
    ⟨(threadStep now e dom idA s.db s.pcA).1, (threadStep now e dom idA s.db s.pcA).2, s.pcB⟩
  else
    ⟨(threadStep now e dom idB s.db s.pcB).1, s.pcA, (threadStep now e dom idB s.db s.pcB).2⟩

/-- Run a whole schedule from an initial state. -/
def runSched (now : Nat) (e : List Char) (dom idA idB : String)
    (sched : List Bool) (s0 : SysState) : SysState :=
  sched.foldl (sysStep now e dom idA idB) s0

/-- The row a creation call with fresh id `myId` inserts. -/
def wRow (now : Nat) (e : List Char) (dom myId : String) : TempRow :=
  ⟨myId, e, dom, now + ttl48⟩

/-- Program counters possible before any insert happened. -/
def pcPre (pc : CPc) : Prop :=
  pc = .start ∨ pc = .doInsert

/-- Program counters of the call whose insert succeeded (winner `w`). -/
def pcWin (w : TempRow) (pc : CPc) : Prop :=
  pc = .fetchNew ∨ pc = .done (some w)

/-- Program counters of the other call once the winner's row is in the store. -/
def pcLose (w : TempRow) (pc : CPc) : Prop :=
  pc = .start ∨ pc = .doInsert ∨ pc = .refetch ∨ pc = .done (some w)

/-- Inductive invariant of the two-call race: either nobody inserted yet, or
exactly one call inserted its row and every completed call answered that row. -/
def InvC (now : Nat) (e : List Char) (dom idA idB : String) (db0 : List TempRow)
    (s : SysState) : Prop :=
  (s.db = db0 ∧ pcPre s.pcA ∧ pcPre s.pcB) ∨
  (s.db = db0 ++ [wRow now e dom idA] ∧
    pcWin (wRow now e dom idA) s.pcA ∧ pcLose (wRow now e dom idA) s.pcB) ∨
  (s.db = db0 ++ [wRow now e dom idB] ∧
    pcWin (wRow now e dom idB) s.pcB ∧ pcLose (wRow now e dom idB) s.pcA)

/-! ## Definitions modelled from the spec (no counterpart in `src/`)

Used only to compare the code's behavior against what the claims say. -/

/-- Modelled from the spec: the single-part fallback result the claim says
`parse` returns on malformed input (`{headers:{}, parts:[{contentType:
"text/plain", content: raw}]}`; the claim's `filename:null` field does not
exist on the code's part objects). -/
def specFallback (raw : List Char) : ParseResult :=
  ⟨[], [⟨tplain, raw⟩]⟩

/-- Modelled from the spec: value of one base64 alphabet character. -/
def b64Val (c : Char) : Option Nat :=
  if 'A' ≤ c ∧ c ≤ 'Z' then some (c.toNat - 65)
  else if 'a' ≤ c ∧ c ≤ 'z' then some (c.toNat - 97 + 26)
  else if '0' ≤ c ∧ c ≤ '9' then some (c.toNat - 48 + 52)
  else if c = '+' then some 62
  else if c = '/' then some 63
  else none

/-- Modelled from the spec: base64 decoding to bytes interpreted as UTF-8 text
(ASCII suffices for the inputs considered), the decoding the claim says the
parser applies to base64 parts. -/
def specBase64Decode : List Char → Option (List Char)
  | [] => some []
  | c1 :: c2 :: c3 :: c4 :: rest => do
    let v1 ← b64Val c1
    let v2 ← b64Val c2
    if c3 = '=' ∧ c4 = '=' ∧ rest = [] then
      some [Char.ofNat (v1 * 4 + v2 / 16)]
    else do
      let v3 ← b64Val c3
      if c4 = '=' ∧ rest = [] then
        some [Char.ofNat (v1 * 4 + v2 / 16), Char.ofNat (v2 % 16 * 16 + v3 / 4)]
      else do
        let v4 ← b64Val c4
        let tl ← specBase64Decode rest
        some ([Char.ofNat (v1 * 4 + v2 / 16), Char.ofNat (v2 % 16 * 16 + v3 / 4),
          Char.ofNat (v3 % 4 * 64 + v4)] ++ tl)
  | _ => none

/-! ## Concrete inputs used by counterexamples and witnesses -/

/-- A malformed raw payload: no headers, no blank line, no boundary. -/
def cexRawPlain : List Char := ("hello").data

/-- A multipart payload whose only real section carries `a--b` in its body. -/
def cexRawDashes : List Char :=
  ("content-type: multipart/mixed; boundary=XY\n\n--XY\ncontent-type: text/plain\n\na--b\n--XY--").data

/-- The non-terminal section of `cexRawDashes` produced by the `--XY` split. -/
def cexDashSection : List Char :=
  ("\ncontent-type: text/plain\n\na--b\n").data

/-- A multipart payload with one base64-encoded text part. -/
def cexRawB64 : List Char :=
  ("content-type: multipart/mixed; boundary=XY\n\n--XY\ncontent-type: text/plain\ncontent-transfer-encoding: base64\n\naGVsbG8=\n--XY--").data

/-- The base64 body of `cexRawB64`, as the parser returns it. -/
def cexB64Body : List Char := ("aGVsbG8=").data

/-- What the claim says that body decodes to. -/
def cexB64Decoded : List Char := ("hello").data

/-- Two HTML parts and two plain parts, to separate first-match from
last-match classification. -/
def cexParts : List Part :=
  [⟨("text/html").data, ("A").data⟩, ⟨("text/html").data, ("B").data⟩,
   ⟨tplain, ("X").data⟩, ⟨tplain, ("Y").data⟩]

/-- A single plain part whose content holds markup and a newline. -/
def cexScriptParts : List Part :=
  [⟨tplain, ("<script>alert(1)</script>\nhi").data⟩]

/-- The naive substitution result for `cexScriptParts`. -/
def cexScriptHtml : List Char :=
  ("<script>alert(1)</script><br>hi").data

/-- A recipient containing `<` but no `<...>` group. -/
def cexRecipient : List Char := ("a<b").data

/-- A well-formed multipart payload with one surviving plain part. -/
def cexRawMulti : List Char :=
  ("content-type: multipart/mixed; boundary=XY\n\n--XY\ncontent-type: text/plain\n\nhello\n--XY--").data

/-- The boundary of `cexRawDashes` and `cexRawMulti`. -/
def cexBoundary : List Char := ("XY").data

/-- Content of the surviving part of `cexRawMulti`. -/
def cexHello : List Char := ("hello").data

/-- A disposable-address email string. -/
def cexEmail : List Char := ("a@x").data

/-- A live `temp_emails` row for `cexEmail` (expires at 1000, used with now = 0). -/
def cexLiveRow : TempRow := ⟨"t1", cexEmail, "d1", 1000⟩

/-- An expired `temp_emails` row for `cexEmail` (expires at 100, used with now = 200). -/
def cexOldRow : TempRow := ⟨"old", cexEmail, "d1", 100⟩

/-- An empty store. -/
def cexDb0 : Db := ⟨[], [], []⟩

/-- A store holding only the live address row. -/
def cexDbLive : Db := ⟨[cexLiveRow], [], []⟩

/-- A message row for ingestion scenarios. -/
def cexMsg : MsgRow := ⟨"m1", "t1", none, [], [], []⟩

/-- An attachment row belonging to `cexMsg`. -/
def cexAtt : AttRow := ⟨"a1", "m1", [], []⟩

/-- Classifier contents used to separate first- from last-match. -/
def cexFirstHtml : List Char := ("A").data

/-- Content of the second HTML part of `cexParts`. -/
def cexLastHtml : List Char := ("B").data

/-- Content of the first plain part of `cexParts`. -/
def cexFirstText : List Char := ("X").data

/-- Content of the second plain part of `cexParts`. -/
def cexLastText : List Char := ("Y").data

/-- The fresh row `createPublicEmail` builds at now = 200 with id `new`. -/
def cexFreshRow : TempRow := ⟨"new", cexEmail, "d1", 200 + ttl48⟩

/-- The winner row of the concurrent-creation witness (call A inserts at now = 0). -/
def cexWinRow : TempRow := ⟨"A", cexEmail, "d1", ttl48⟩

/-- The racy schedule: both calls pass the existence check before either
inserts; call A inserts first, call B hits the duplicate error and refetches. -/
def cexSched : List Bool := [true, false, true, true, false, false]

/-- A domain id. -/
def cexDom : String := "d1"

/-- Fresh id used by creation call A. -/
def cexIdA : String := "A"

/-- Fresh id used by creation call B. -/
def cexIdB : String := "B"

/-- Fresh id used by single creation calls. -/
def cexIdNew : String := "new"

/-! ## Basic lemmas about the string primitives -/

theorem findSep_some {sep s p q : List Char} (h : findSep sep s = some (p, q)) :
    s = p ++ sep ++ q := by
  induction s generalizing p q with
  | nil =>
    simp only [findSep] at h
    split at h
    · next hp =>
      obtain ⟨t, ht⟩ := List.isPrefixOf_iff_prefix.mp hp
      simp at h
      obtain ⟨rfl, rfl⟩ := h
      simp at ht ⊢
      simp [← ht]
    · exact absurd h (by simp)
  | cons c cs ih =>
    simp only [findSep] at h
    split at h
    · next hp =>
      obtain ⟨t, ht⟩ := List.isPrefixOf_iff_prefix.mp hp
      simp at h
      obtain ⟨rfl, rfl⟩ := h
      conv_lhs => rw [← ht]
      simp [← ht, List.drop_left]
    · revert h
      cases hfs : findSep sep cs with
      | none => intro h; exact absurd h (by simp)
      | some pq =>
        obtain ⟨p0, q0⟩ := pq
        intro h
        simp at h
        obtain ⟨rfl, rfl⟩ := h
        simpa using congrArg (c :: ·) (ih hfs)

theorem findSep_some_length {sep s p q : List Char} (hsep : sep ≠ [])
    (h : findSep sep s = some (p, q)) : q.length < s.length := by
  have hs := findSep_some h
  have : 0 < sep.length := List.length_pos.mpr hsep
  subst hs
  simp
  omega

theorem findSep_none_of_not_includes {sep s : List Char} (h : jsIncludes s sep = false) :
    findSep sep s = none := by
  induction s with
  | nil =>
    simp only [jsIncludes, List.tails, List.any_cons, List.any_nil] at h
    simp only [findSep]
    simp only [Bool.or_false] at h
    simp [h]
  | cons c cs ih =>
    simp only [jsIncludes, List.tails_cons, List.any_cons, Bool.or_eq_false_iff] at h
    obtain ⟨h1, h2⟩ := h
    simp only [findSep, h1]
    simp only [Bool.false_eq_true, if_false]
    rw [ih (by simpa [jsIncludes] using h2)]

theorem jsSplitAux_ne_nil (sep : List Char) (fuel : Nat) (s : List Char) :
    jsSplitAux sep fuel s ≠ [] := by
  cases fuel with
  | zero => simp [jsSplitAux]
  | succ n =>
    simp only [jsSplitAux]
    cases findSep sep s with
    | none => simp
    | some pq => simp

theorem jsJoin_splitAux (sep : List Char) (hsep : sep ≠ []) :
    ∀ fuel s, s.length < fuel → jsJoin sep (jsSplitAux sep fuel s) = s := by
  intro fuel
  induction fuel with
  | zero => intro s h; omega
  | succ n ih =>
    intro s hlen
    simp only [jsSplitAux]
    cases hfs : findSep sep s with
    | none => simp [jsJoin]
    | some pq =>
      obtain ⟨p, q⟩ := pq
      show jsJoin sep (p :: jsSplitAux sep n q) = s
      have hq : q.length < s.length := findSep_some_length hsep hfs
      have hrec := ih q (by omega)
      have hne := jsSplitAux_ne_nil sep n q
      cases hsp : jsSplitAux sep n q with
      | nil => exact absurd hsp hne
      | cons y t =>
        rw [hsp] at hrec
        simp only [jsJoin]
        rw [hrec]
        exact (findSep_some hfs).symm

theorem jsJoin_jsSplit (sep : List Char) (hsep : sep ≠ []) (s : List Char) :
    jsJoin sep (jsSplit sep s) = s :=
  jsJoin_splitAux sep hsep (s.length + 1) s (by omega)

theorem mem_jsSplitAux_sub (sep : List Char) (hsep : sep ≠ []) :
    ∀ fuel s p, s.length < fuel → p ∈ jsSplitAux sep fuel s → p <:+: s := by
  intro fuel
  induction fuel with
  | zero => intro s p h; omega
  | succ n ih =>
    intro s p hlen hmem
    simp only [jsSplitAux] at hmem
    revert hmem
    cases hfs : findSep sep s with
    | none => intro hmem; simp at hmem; subst hmem; exact List.infix_refl _
    | some pq =>
      obtain ⟨p0, q⟩ := pq
      intro hmem
      simp at hmem
      have hs := findSep_some hfs
      cases hmem with
      | inl h =>
        subst h
        exact ⟨[], sep ++ q, by simpa using hs.symm⟩
      | inr h =>
        have hq : q.length < s.length := findSep_some_length hsep hfs
        have h1 : p <:+: q := ih q p (by omega) h
        have h2 : q <:+: s := ⟨p0 ++ sep, [], by simpa using hs.symm⟩
        exact h1.trans h2

theorem mem_jsSplit_sub {sep s p : List Char} (hsep : sep ≠ [])
    (h : p ∈ jsSplit sep s) : p <:+: s :=
  mem_jsSplitAux_sub sep hsep (s.length + 1) s p (by omega) h

theorem jsJoin_tail_sub (sep : List Char) (l : List (List Char)) :
    jsJoin sep l.tail <:+: jsJoin sep l := by
  cases l with
  | nil => simp [jsJoin]
  | cons x t =>
    cases t with
    | nil => simp [jsJoin]
    | cons y r =>
      simp only [List.tail_cons, jsJoin]
      exact ⟨x ++ sep, [], by simp⟩

theorem jsTrimLeft_suffix (s : List Char) : jsTrimLeft s <:+ s := by
  induction s with
  | nil => simp [jsTrimLeft]
  | cons c r ih =>
    simp only [jsTrimLeft]
    split
    · exact ih.trans (List.suffix_cons c r)
    · exact List.suffix_refl _

theorem jsTrim_sub (s : List Char) : jsTrim s <:+: s := by
  have h1 : jsTrimLeft s <:+ s := jsTrimLeft_suffix s
  have h2 : jsTrimLeft ((jsTrimLeft s).reverse) <:+ (jsTrimLeft s).reverse :=
    jsTrimLeft_suffix _
  have h3 : (jsTrimLeft ((jsTrimLeft s).reverse)).reverse <+: jsTrimLeft s := by
    have h4 := List.reverse_prefix.mpr h2
    simpa using h4
  exact (h3.isInfix.trans h1.isInfix)

theorem jsIncludes_iff_sub {s t : List Char} : jsIncludes s t = true ↔ t <:+: s := by
  simp only [jsIncludes, List.any_eq_true, List.mem_tails]
  constructor
  · rintro ⟨x, hx, hp⟩
    exact List.infix_iff_prefix_suffix.mpr ⟨x, List.isPrefixOf_iff_prefix.mp hp, hx⟩
  · intro h
    obtain ⟨x, hp, hx⟩ := List.infix_iff_prefix_suffix.mp h
    exact ⟨x, hx, List.isPrefixOf_iff_prefix.mpr hp⟩

theorem jsIncludes_false_of_sub {s t u : List Char} (hinf : t <:+: s)
    (h : jsIncludes s u = false) : jsIncludes t u = false := by
  by_contra hc
  have : jsIncludes t u = true := by
    cases hval : jsIncludes t u with
    | false => exact absurd hval hc
    | true => rfl
  have : u <:+: s := (jsIncludes_iff_sub.mp this).trans hinf
  rw [jsIncludes_iff_sub.mpr this] at h
  exact absurd h (by simp)

theorem jsSplit_eq_self_of_not_includes {sep s : List Char}
    (h : jsIncludes s sep = false) : jsSplit sep s = [s] := by
  simp only [jsSplit, jsSplitAux, findSep_none_of_not_includes h]

/-! ## Parser structure lemmas -/

theorem bodyJoin_sub (raw : List Char) :
    jsJoin dsep ((jsSplit dsep raw).tail) <:+: raw := by
  have h1 := jsJoin_tail_sub dsep (jsSplit dsep raw)
  rwa [jsJoin_jsSplit dsep (by decide) raw] at h1

theorem sectionToPart_eq_some {sec : List Char} {p : Part}
    (h : sectionToPart sec = some p) :
    jsIncludes sec ddash = false ∧
    p.content = jsTrim (jsJoin dsep ((jsSplit dsep (jsTrim sec)).tail)) := by
  simp only [sectionToPart] at h
  split at h
  · exact absurd h (by simp)
  · next hcond =>
    push_neg at hcond
    obtain ⟨h1, h2⟩ := hcond
    revert h
    cases hmc : matchContentType ((jsSplit dsep (jsTrim sec)).headD []) with
    | none => intro h; exact absurd h (by simp)
    | some ct =>
      intro h
      simp only [Option.some.injEq] at h
      refine ⟨by simpa using h2, ?_⟩
      rw [← h]

theorem part_content_sub_section {sec : List Char} {p : Part}
    (h : sectionToPart sec = some p) : p.content <:+: sec := by
  obtain ⟨-, hc⟩ := sectionToPart_eq_some h
  rw [hc]
  exact (jsTrim_sub _).trans ((bodyJoin_sub (jsTrim sec)).trans (jsTrim_sub sec))

theorem parseEmailContent_headers (raw : List Char) :
    (parseEmailContent raw).headers =
      parseHeadersAux (jsSplit nlsep ((jsSplit dsep raw).headD [])) [] [] := by
  simp only [parseEmailContent]
  split <;> rfl

theorem parseEmailContent_parts_some {raw b : List Char}
    (hb : findBoundary (jsOr (getKey (parseHeadersAux
      (jsSplit nlsep ((jsSplit dsep raw).headD [])) [] []) ctKey) []) = some b) :
    (parseEmailContent raw).parts =
      (jsSplit (('-' :: '-' :: []) ++ b)
        (jsJoin dsep ((jsSplit dsep raw).tail))).filterMap sectionToPart := by
  simp only [parseEmailContent]
  rw [hb]

theorem parseEmailContent_parts_none {raw : List Char}
    (hb : findBoundary (jsOr (getKey (parseHeadersAux
      (jsSplit nlsep ((jsSplit dsep raw).headD [])) [] []) ctKey) []) = none) :
    (parseEmailContent raw).parts =
      [⟨jsOr (getKey (parseHeadersAux
          (jsSplit nlsep ((jsSplit dsep raw).headD [])) [] []) ctKey) tplain,
        jsJoin dsep ((jsSplit dsep raw).tail)⟩] := by
  simp only [parseEmailContent]
  rw [hb]

theorem part_content_sub_raw {raw : List Char} {p : Part}
    (hp : p ∈ (parseEmailContent raw).parts) : p.content <:+: raw := by
  cases hb : findBoundary (jsOr (getKey (parseHeadersAux
      (jsSplit nlsep ((jsSplit dsep raw).headD [])) [] []) ctKey) []) with
  | none =>
    rw [parseEmailContent_parts_none hb] at hp
    simp only [List.mem_singleton] at hp
    subst hp
    exact bodyJoin_sub raw
  | some b =>
    rw [parseEmailContent_parts_some hb] at hp
    rw [List.mem_filterMap] at hp
    obtain ⟨sec, hsec, hstp⟩ := hp
    have h1 : p.content <:+: sec := part_content_sub_section hstp
    have h2 : sec <:+: jsJoin dsep ((jsSplit dsep raw).tail) :=
      mem_jsSplit_sub (by simp) hsec
    exact h1.trans (h2.trans (bodyJoin_sub raw))

theorem parseHeadersAux_no_match {lines : List (List Char)}
    (h : ∀ l ∈ lines, matchHeaderLine l = none) :
    ∀ acc, parseHeadersAux lines [] acc = acc := by
  induction lines with
  | nil => intro acc; rfl
  | cons line rest ih =>
    intro acc
    simp only [parseHeadersAux]
    rw [if_neg (by simp)]
    rw [h line (by simp)]
    exact ih (fun l hl => h l (by simp [hl])) acc

/-! ## Classifier characterization (the overwrite loop keeps the last match) -/

theorem classStep_html_of_html {d : EmailData} {p : Part} (h : isHtmlPart p = true) :
    classStep d p = { d with htmlContent := p.content } := by
  simp only [isHtmlPart] at h
  simp [classStep, h]

theorem classStep_html_of_not {d : EmailData} {p : Part} (h : isHtmlPart p = false) :
    (classStep d p).htmlContent = d.htmlContent := by
  simp only [isHtmlPart] at h
  simp only [classStep, h, Bool.false_eq_true, if_false]
  split
  · rfl
  · split
    · rfl
    · rfl

theorem classStep_text_of_plain {d : EmailData} {p : Part} (h : isPlainPart p = true) :
    classStep d p = { d with textContent := p.content } := by
  simp only [isPlainPart, isHtmlPart, Bool.and_eq_true, Bool.not_eq_true'] at h
  simp [classStep, h.1, h.2]

theorem classStep_text_of_not {d : EmailData} {p : Part} (h : isPlainPart p = false) :
    (classStep d p).textContent = d.textContent := by
  cases hh : jsIncludes p.contentType htmlTag with
  | true => simp [classStep, hh]
  | false =>
    cases hpl : jsIncludes p.contentType tplain with
    | true => simp [isPlainPart, isHtmlPart, hh, hpl] at h
    | false =>
      simp only [classStep, hh, hpl, Bool.false_eq_true, if_false]
      split
      · rfl
      · rfl

theorem classStep_atts_of_attach {d : EmailData} {p : Part} (h : isAttachPart p = true) :
    classStep d p = { d with attachments := d.attachments ++ [⟨p.contentType, p.content⟩] } := by
  simp only [isAttachPart, isHtmlPart, Bool.and_eq_true, Bool.not_eq_true'] at h
  simp [classStep, h.1.1, h.1.2, h.2]

theorem classStep_atts_of_not {d : EmailData} {p : Part} (h : isAttachPart p = false) :
    (classStep d p).attachments = d.attachments := by
  cases hh : jsIncludes p.contentType htmlTag with
  | true => simp [classStep, hh]
  | false =>
    cases hpl : jsIncludes p.contentType tplain with
    | true => simp [classStep, hh, hpl]
    | false =>
      cases him : (jsIncludes p.contentType imgTag || jsIncludes p.contentType appTag) with
      | true => simp [isAttachPart, isHtmlPart, hh, hpl, him] at h
      | false => simp [classStep, hh, hpl, him]

theorem foldl_classStep_html (parts : List Part) : ∀ d0 : EmailData,
    (parts.foldl classStep d0).htmlContent =
      lastContentD (parts.filter isHtmlPart) d0.htmlContent := by
  induction parts with
  | nil => intro d0; rfl
  | cons p rest ih =>
    intro d0
    simp only [List.foldl_cons, List.filter_cons]
    cases h1 : isHtmlPart p with
    | true =>
      rw [classStep_html_of_html h1, ih]
      simp [lastContentD]
    | false =>
      rw [ih]
      simp only [Bool.false_eq_true, if_false]
      rw [classStep_html_of_not h1]

theorem foldl_classStep_text (parts : List Part) : ∀ d0 : EmailData,
    (parts.foldl classStep d0).textContent =
      lastContentD (parts.filter isPlainPart) d0.textContent := by
  induction parts with
  | nil => intro d0; rfl
  | cons p rest ih =>
    intro d0
    simp only [List.foldl_cons, List.filter_cons]
    cases h1 : isPlainPart p with
    | true =>
      rw [classStep_text_of_plain h1, ih]
      simp [lastContentD]
    | false =>
      rw [ih]
      simp only [Bool.false_eq_true, if_false]
      rw [classStep_text_of_not h1]

theorem foldl_classStep_atts (parts : List Part) : ∀ d0 : EmailData,
    (parts.foldl classStep d0).attachments =
      d0.attachments ++ (parts.filter isAttachPart).map (fun p => AttPart.mk p.contentType p.content) := by
  induction parts with
  | nil => intro d0; simp
  | cons p rest ih =>
    intro d0
    simp only [List.foldl_cons, List.filter_cons]
    cases h1 : isAttachPart p with
    | true =>
      rw [classStep_atts_of_attach h1, ih]
      simp
    | false =>
      rw [ih]
      simp only [Bool.false_eq_true, if_false]
      congr 1
      rw [classStep_atts_of_not h1]

/-! ## Ingestion helper lemmas -/

theorem runAttsFrom_some {atts : List AttRow} :
    ∀ (w : Db) (ok : Nat → Bool) (i : Nat) (w2 : Db),
      ingestTxn.runAttsFrom w atts ok i = some w2 →
      w2.tempEmails = w.tempEmails ∧ w2.messages = w.messages ∧
        w2.attachments = w.attachments ++ atts := by
  induction atts with
  | nil =>
    intro w ok i w2 h
    simp only [ingestTxn.runAttsFrom, Option.some.injEq] at h
    subst h
    simp
  | cons a rest ih =>
    intro w ok i w2 h
    simp only [ingestTxn.runAttsFrom] at h
    split at h
    · obtain ⟨h1, h2, h3⟩ := ih _ _ _ _ h
      exact ⟨h1, h2, by simpa using h3⟩
    · exact absurd h (by simp)

/-! ## Facts about the store during the creation race -/

theorem filter_live_nil {db0 : List TempRow} {e : List Char} {now : Nat}
    (h : ∀ r ∈ db0, r.email ≠ e) : db0.filter (liveFor e now) = [] := by
  rw [List.filter_eq_nil]
  intro r hr
  simp only [liveFor, decide_eq_true_eq]
  rintro ⟨he, -⟩
  exact h r hr he

theorem filter_email_nil {db0 : List TempRow} {e : List Char}
    (h : ∀ r ∈ db0, r.email ≠ e) :
    db0.filter (fun r => decide (r.email = e)) = [] := by
  rw [List.filter_eq_nil]
  intro r hr
  simp only [decide_eq_true_eq]
  exact h r hr

theorem any_email_false {db0 : List TempRow} {e : List Char}
    (h : ∀ r ∈ db0, r.email ≠ e) :
    db0.any (fun r => decide (r.email = e)) = false := by
  rw [List.any_eq_false]
  intro r hr
  simp only [decide_eq_true_eq]
  exact h r hr

theorem liveFor_wRow (now : Nat) (e : List Char) (dom myId : String) :
    liveFor e now (wRow now e dom myId) = true := by
  have hlt : now < now + ttl48 := by simp only [ttl48]; omega
  simp [liveFor, wRow, hlt]

theorem filter_live_w {db0 : List TempRow} {e : List Char} {now : Nat}
    {dom myId : String} (h : ∀ r ∈ db0, r.email ≠ e) :
    (db0 ++ [wRow now e dom myId]).filter (liveFor e now) = [wRow now e dom myId] := by
  rw [List.filter_append, filter_live_nil h]
  simp [List.filter_cons, liveFor_wRow]

theorem filter_email_w {db0 : List TempRow} {e : List Char} {now : Nat}
    {dom myId : String} (h : ∀ r ∈ db0, r.email ≠ e) :
    (db0 ++ [wRow now e dom myId]).filter (fun r => decide (r.email = e)) =
      [wRow now e dom myId] := by
  rw [List.filter_append, filter_email_nil h]
  simp [List.filter_cons, wRow]

theorem any_email_w {db0 : List TempRow} {e : List Char} {now : Nat}
    {dom myId : String} :
    (db0 ++ [wRow now e dom myId]).any (fun r => decide (r.email = e)) = true := by
  rw [List.any_append]
  simp [wRow]

theorem filter_id_w {db0 : List TempRow} {e : List Char} {now : Nat}
    {dom myId : String} (h : ∀ r ∈ db0, r.id ≠ myId) :
    (db0 ++ [wRow now e dom myId]).filter (fun r => decide (r.id = myId)) =
      [wRow now e dom myId] := by
  rw [List.filter_append]
  have h0 : db0.filter (fun r => decide (r.id = myId)) = [] := by
    rw [List.filter_eq_nil]
    intro r hr
    simp only [decide_eq_true_eq]
    exact h r hr
  rw [h0]
  simp [List.filter_cons, wRow]

/-! ## Thread-step computations -/

theorem threadStep_start_pre {now : Nat} {e : List Char} {dom myId : String}
    {db0 : List TempRow} (h : ∀ r ∈ db0, r.email ≠ e) :
    threadStep now e dom myId db0 .start = (db0, .doInsert) := by
  simp [threadStep, filter_live_nil h]

theorem threadStep_start_w {now : Nat} {e : List Char} {dom myId their : String}
    {db0 : List TempRow} (h : ∀ r ∈ db0, r.email ≠ e) :
    threadStep now e dom myId (db0 ++ [wRow now e dom their]) .start =
      (db0 ++ [wRow now e dom their], .done (some (wRow now e dom their))) := by
  simp [threadStep, filter_live_w h]

theorem threadStep_insert_pre {now : Nat} {e : List Char} {dom myId : String}
    {db0 : List TempRow} (h : ∀ r ∈ db0, r.email ≠ e) :
    threadStep now e dom myId db0 .doInsert =
      (db0 ++ [wRow now e dom myId], .fetchNew) := by
  simp [threadStep, any_email_false h, wRow]

theorem threadStep_insert_w {now : Nat} {e : List Char} {dom myId their : String}
    {db0 : List TempRow} :
    threadStep now e dom myId (db0 ++ [wRow now e dom their]) .doInsert =
      (db0 ++ [wRow now e dom their], .refetch) := by
  simp only [threadStep]
  rw [any_email_w]
  simp

theorem threadStep_fetchNew_w {now : Nat} {e : List Char} {dom myId : String}
    {db0 : List TempRow} (h : ∀ r ∈ db0, r.id ≠ myId) :
    threadStep now e dom myId (db0 ++ [wRow now e dom myId]) .fetchNew =
      (db0 ++ [wRow now e dom myId], .done (some (wRow now e dom myId))) := by
  simp [threadStep, filter_id_w h]

theorem threadStep_refetch_w {now : Nat} {e : List Char} {dom myId their : String}
    {db0 : List TempRow} (h : ∀ r ∈ db0, r.email ≠ e) :
    threadStep now e dom myId (db0 ++ [wRow now e dom their]) .refetch =
      (db0 ++ [wRow now e dom their], .done (some (wRow now e dom their))) := by
  simp [threadStep, filter_email_w h]

theorem threadStep_done {now : Nat} {e : List Char} {dom myId : String}
    {db : List TempRow} {r : Option TempRow} :
    threadStep now e dom myId db (.done r) = (db, .done r) := rfl

theorem sysStep_true (now : Nat) (e : List Char) (dom idA idB : String) (s : SysState) :
    sysStep now e dom idA idB s true =
      ⟨(threadStep now e dom idA s.db s.pcA).1, (threadStep now e dom idA s.db s.pcA).2, s.pcB⟩ := rfl

theorem sysStep_false (now : Nat) (e : List Char) (dom idA idB : String) (s : SysState) :
    sysStep now e dom idA idB s false =
      ⟨(threadStep now e dom idB s.db s.pcB).1, s.pcA, (threadStep now e dom idB s.db s.pcB).2⟩ := rfl

/-! ## Invariant preservation for the creation race -/

theorem InvC_step {now : Nat} {e : List Char} {dom idA idB : String}
    {db0 : List TempRow}
    (hE : ∀ r ∈ db0, r.email ≠ e)
    (hFA : ∀ r ∈ db0, r.id ≠ idA) (hFB : ∀ r ∈ db0, r.id ≠ idB)
    {s : SysState} (hs : InvC now e dom idA idB db0 s) (turn : Bool) :
    InvC now e dom idA idB db0 (sysStep now e dom idA idB s turn) := by
  obtain ⟨db, pcA, pcB⟩ := s
  simp only [InvC, pcPre, pcWin, pcLose] at hs
  rcases hs with ⟨hdb, hA, hB⟩ | ⟨hdb, hA, hB⟩ | ⟨hdb, hA, hB⟩ <;> subst hdb
  · -- nobody inserted yet
    cases turn
    · -- call B moves
      rcases hB with rfl | rfl
      · simp only [sysStep_false]
        rw [threadStep_start_pre hE]
        exact Or.inl ⟨rfl, hA, Or.inr rfl⟩
      · simp only [sysStep_false]
        rw [threadStep_insert_pre hE]
        refine Or.inr (Or.inr ⟨rfl, Or.inl rfl, ?_⟩)
        rcases hA with rfl | rfl
        · exact Or.inl rfl
        · exact Or.inr (Or.inl rfl)
    · -- call A moves
      rcases hA with rfl | rfl
      · simp only [sysStep_true]
        rw [threadStep_start_pre hE]
        exact Or.inl ⟨rfl, Or.inr rfl, hB⟩
      · simp only [sysStep_true]
        rw [threadStep_insert_pre hE]
        refine Or.inr (Or.inl ⟨rfl, Or.inl rfl, ?_⟩)
        rcases hB with rfl | rfl
        · exact Or.inl rfl
        · exact Or.inr (Or.inl rfl)
  · -- call A inserted
    cases turn
    · -- call B (the loser) moves
      rcases hB with rfl | rfl | rfl | rfl
      · simp only [sysStep_false]
        rw [threadStep_start_w hE]
        exact Or.inr (Or.inl ⟨rfl, hA, Or.inr (Or.inr (Or.inr rfl))⟩)
      · simp only [sysStep_false]
        rw [threadStep_insert_w]
        exact Or.inr (Or.inl ⟨rfl, hA, Or.inr (Or.inr (Or.inl rfl))⟩)
      · simp only [sysStep_false]
        rw [threadStep_refetch_w hE]
        exact Or.inr (Or.inl ⟨rfl, hA, Or.inr (Or.inr (Or.inr rfl))⟩)
      · simp only [sysStep_false]
        rw [threadStep_done]
        exact Or.inr (Or.inl ⟨rfl, hA, Or.inr (Or.inr (Or.inr rfl))⟩)
    · -- call A (the winner) moves
      rcases hA with rfl | rfl
      · simp only [sysStep_true]
        rw [threadStep_fetchNew_w hFA]
        exact Or.inr (Or.inl ⟨rfl, Or.inr rfl, hB⟩)
      · simp only [sysStep_true]
        rw [threadStep_done]
        exact Or.inr (Or.inl ⟨rfl, Or.inr rfl, hB⟩)
  · -- call B inserted: here hA speaks about pcB (the winner) and hB about pcA
    cases turn
    · -- call B (the winner) moves
      rcases hA with rfl | rfl
      · simp only [sysStep_false]
        rw [threadStep_fetchNew_w hFB]
        exact Or.inr (Or.inr ⟨rfl, Or.inr rfl, hB⟩)
      · simp only [sysStep_false]
        rw [threadStep_done]
        exact Or.inr (Or.inr ⟨rfl, Or.inr rfl, hB⟩)
    · -- call A (the loser) moves
      rcases hB with rfl | rfl | rfl | rfl
      · simp only [sysStep_true]
        rw [threadStep_start_w hE]
        exact Or.inr (Or.inr ⟨rfl, hA, Or.inr (Or.inr (Or.inr rfl))⟩)
      · simp only [sysStep_true]
        rw [threadStep_insert_w]
        exact Or.inr (Or.inr ⟨rfl, hA, Or.inr (Or.inr (Or.inl rfl))⟩)
      · simp only [sysStep_true]
        rw [threadStep_refetch_w hE]
        exact Or.inr (Or.inr ⟨rfl, hA, Or.inr (Or.inr (Or.inr rfl))⟩)
      · simp only [sysStep_true]
        rw [threadStep_done]
        exact Or.inr (Or.inr ⟨rfl, hA, Or.inr (Or.inr (Or.inr rfl))⟩)

theorem InvC_runSched (now : Nat) {e : List Char} (dom : String) {idA idB : String}
    {db0 : List TempRow}
    (hE : ∀ r ∈ db0, r.email ≠ e)
    (hFA : ∀ r ∈ db0, r.id ≠ idA) (hFB : ∀ r ∈ db0, r.id ≠ idB)
    (sched : List Bool) :
    InvC now e dom idA idB db0 (runSched now e dom idA idB sched ⟨db0, .start, .start⟩) := by
  have hgen : ∀ (l : List Bool) (s : SysState), InvC now e dom idA idB db0 s →
      InvC now e dom idA idB db0 (l.foldl (sysStep now e dom idA idB) s) := by
    intro l
    induction l with
    | nil => intro s hs; exact hs
    | cons t rest ih =>
      intro s hs
      exact ih _ (InvC_step hE hFA hFB hs t)
  exact hgen sched _ (Or.inl ⟨rfl, Or.inl rfl, Or.inl rfl⟩)

/-! # Claim theorems

One theorem per claim of the specification review, with witnesses for
hypothesis-bearing theorems and concrete counterexamples where the claim
fails on the code. -/

/-- C1 (amended): in the transactional revision of the webhook handler, the
message insert and the per-attachment inserts are atomic — the handler either
answers 200 with the message and every attachment committed together, or
answers 500 with the store exactly as before, so a fresh message id is never
readable after a failure. -/
theorem ingestTxn_atomic :
    ∀ (db : Db) (m : MsgRow) (atts : List AttRow) (msgOk : Bool) (attOk : Nat → Bool),
      m.id ∉ db.messages.map MsgRow.id →
      ((ingestTxn db m atts msgOk attOk).2 = 200 ∧
        (ingestTxn db m atts msgOk attOk).1.tempEmails = db.tempEmails ∧
        (ingestTxn db m atts msgOk attOk).1.messages = db.messages ++ [m] ∧
        (ingestTxn db m atts msgOk attOk).1.attachments = db.attachments ++ atts) ∨
      ((ingestTxn db m atts msgOk attOk).2 = 500 ∧
        (ingestTxn db m atts msgOk attOk).1 = db ∧
        m.id ∉ (ingestTxn db m atts msgOk attOk).1.messages.map MsgRow.id) := by
  intro db m atts msgOk attOk hfresh
  cases msgOk with
  | false => exact Or.inr ⟨rfl, rfl, hfresh⟩
  | true =>
    cases hr : ingestTxn.runAttsFrom { db with messages := db.messages ++ [m] } atts attOk 0 with
    | some w2 =>
      obtain ⟨h1, h2, h3⟩ := runAttsFrom_some _ _ _ _ hr
      have hred : ingestTxn db m atts true attOk = (w2, 200) := by
        simp [ingestTxn, hr]
      rw [hred]
      exact Or.inl ⟨rfl, by simpa using h1, by simpa using h2, by simpa using h3⟩
    | none =>
      have hred : ingestTxn db m atts true attOk = (db, 500) := by
        simp [ingestTxn, hr]
      rw [hred]
      exact Or.inr ⟨rfl, rfl, hfresh⟩

/-- Witness for `ingestTxn_atomic` at a concrete store, message and
attachment list. -/
theorem ingestTxn_atomic_witness :
    (cexMsg.id ∉ cexDb0.messages.map MsgRow.id) ∧
    (((ingestTxn cexDb0 cexMsg [cexAtt] true (fun _ => true)).2 = 200 ∧
      (ingestTxn cexDb0 cexMsg [cexAtt] true (fun _ => true)).1.tempEmails = cexDb0.tempEmails ∧
      (ingestTxn cexDb0 cexMsg [cexAtt] true (fun _ => true)).1.messages = cexDb0.messages ++ [cexMsg] ∧
      (ingestTxn cexDb0 cexMsg [cexAtt] true (fun _ => true)).1.attachments = cexDb0.attachments ++ [cexAtt]) ∨
    ((ingestTxn cexDb0 cexMsg [cexAtt] true (fun _ => true)).2 = 500 ∧
      (ingestTxn cexDb0 cexMsg [cexAtt] true (fun _ => true)).1 = cexDb0 ∧
      cexMsg.id ∉ (ingestTxn cexDb0 cexMsg [cexAtt] true (fun _ => true)).1.messages.map MsgRow.id)) :=
  ⟨by decide, ingestTxn_atomic cexDb0 cexMsg [cexAtt] true (fun _ => true) (by decide)⟩

/-- Counterexample to C1 as stated over every revision: in the
non-transactional revision a failing attachment insert surfaces 500 while the
just-inserted message row stays readable. -/
theorem ingestNoTxn_partial_write :
    (ingestNoTxn cexDb0 cexMsg [cexAtt] true (fun _ => false)).2 = 500 ∧
    cexMsg.id ∈ (ingestNoTxn cexDb0 cexMsg [cexAtt] true (fun _ => false)).1.messages.map MsgRow.id := by
  constructor
  · decide
  · decide

/-- C2 (code bug): the `part_003` revision computes the signature-verification
result and then ignores it — with verification failed (`sigValid = false`) and
a live recipient, the handler still answers 200 and stores the message. -/
theorem part003_stores_unsigned :
    part003Handler false (some cexEmail) cexDbLive 0 cexMsg true =
      (200, Db.mk [cexLiveRow] [cexMsg] []) := by
  decide

/-- C3 (amended): on a malformed string input with no blank-line separator and
no line matching the header pattern, the parser returns headers `{}` and a
single `text/plain` part whose content is the empty body after the (absent)
blank line — not the raw input, and with no `filename` field. -/
theorem parse_malformed_single_part :
    ∀ raw : List Char, jsIncludes raw dsep = false →
      (∀ line ∈ jsSplit nlsep raw, matchHeaderLine line = none) →
      parseEmailContent raw = ⟨[], [⟨tplain, []⟩]⟩ := by
  intro raw h1 h2
  have hsplit : jsSplit dsep raw = [raw] := jsSplit_eq_self_of_not_includes h1
  simp only [parseEmailContent, hsplit, List.headD_cons, List.tail_cons]
  rw [parseHeadersAux_no_match h2 []]
  simp [getKey, jsOr, findBoundary, jsJoin]

/-- Witness for `parse_malformed_single_part` at the raw input `hello`. -/
theorem parse_malformed_single_part_witness :
    (jsIncludes cexRawPlain dsep = false ∧
      (∀ line ∈ jsSplit nlsep cexRawPlain, matchHeaderLine line = none)) ∧
    parseEmailContent cexRawPlain = ⟨[], [⟨tplain, []⟩]⟩ :=
  ⟨⟨by decide, by decide⟩, parse_malformed_single_part cexRawPlain (by decide) (by decide)⟩

/-- Counterexample to C3 as stated: on the malformed input `hello` the parser
does not return the claimed fallback whose part content is the raw input; the
content comes out empty. -/
theorem parse_fallback_not_raw :
    parseEmailContent cexRawPlain = ⟨[], [⟨tplain, []⟩]⟩ ∧
    parseEmailContent cexRawPlain ≠ specFallback cexRawPlain := by
  constructor
  · decide
  · decide

/-- C4 (amended): the parser performs no transfer-encoding decoding — every
produced part content is a verbatim contiguous substring of the raw input,
whatever the content-transfer-encoding header says. -/
theorem parse_content_passthrough :
    ∀ (raw : List Char) (p : Part), p ∈ (parseEmailContent raw).parts →
      jsIncludes raw p.content = true := by
  intro raw p hp
  exact jsIncludes_iff_sub.mpr (part_content_sub_raw hp)

/-- Witness for `parse_content_passthrough` at the base64 multipart input. -/
theorem parse_content_passthrough_witness :
    ((⟨tplain, cexB64Body⟩ : Part) ∈ (parseEmailContent cexRawB64).parts) ∧
    jsIncludes cexRawB64 cexB64Body = true :=
  ⟨by decide, parse_content_passthrough cexRawB64 ⟨tplain, cexB64Body⟩ (by decide)⟩

/-- Counterexample to C4 as stated: a part declaring
`content-transfer-encoding: base64` keeps its encoded body verbatim, although
the claimed decoding would have produced `hello`. -/
theorem parse_base64_not_decoded :
    (parseEmailContent cexRawB64).parts = [⟨tplain, cexB64Body⟩] ∧
    specBase64Decode cexB64Body = some cexB64Decoded ∧
    cexB64Body ≠ cexB64Decoded := by
  refine ⟨by decide, by decide, by decide⟩

/-- C5 (amended): when a boundary is present the parser splits the body on
`--boundary`, but a section survives only if it contains no occurrence of the
substring `--` at all; consequently no produced part content ever contains
`--`. -/
theorem parse_sections_drop_ddash :
    ∀ (raw b : List Char),
      findBoundary (jsOr (getKey (parseEmailContent raw).headers ctKey) []) = some b →
      ∀ p ∈ (parseEmailContent raw).parts, jsIncludes p.content ddash = false := by
  intro raw b hb p hp
  rw [parseEmailContent_headers] at hb
  rw [parseEmailContent_parts_some hb] at hp
  rw [List.mem_filterMap] at hp
  obtain ⟨sec, hsec, hstp⟩ := hp
  obtain ⟨hdd, -⟩ := sectionToPart_eq_some hstp
  exact jsIncludes_false_of_sub (part_content_sub_section hstp) hdd

/-- Witness for `parse_sections_drop_ddash` at a well-formed multipart input. -/
theorem parse_sections_drop_ddash_witness :
    (findBoundary (jsOr (getKey (parseEmailContent cexRawMulti).headers ctKey) []) =
      some cexBoundary) ∧
    jsIncludes (Part.mk tplain cexHello).content ddash = false :=
  ⟨by decide,
    parse_sections_drop_ddash cexRawMulti cexBoundary (by decide) ⟨tplain, cexHello⟩ (by decide)⟩

/-- Counterexample to C5 as stated: the non-empty, non-terminal section whose
body contains `a--b` is produced by the split but yields no part at all. -/
theorem parse_drops_ddash_section :
    cexDashSection ∈ jsSplit (ddash ++ cexBoundary)
      (jsJoin dsep ((jsSplit dsep cexRawDashes).tail)) ∧
    jsTrim cexDashSection ≠ [] ∧
    (parseEmailContent cexRawDashes).parts = [] := by
  refine ⟨by decide, by decide, by decide⟩

/-- C6 (amended): the classification loop keeps the LAST matching HTML part
and the LAST matching plain part (each assignment overwrites), and the
attachments are exactly the parts whose content type contains neither
`text/html` nor `text/plain` but contains `image/` or `application/`. -/
theorem classify_last_match :
    ∀ parts : List Part,
      (classifyParts parts).htmlContent = lastContentD (parts.filter isHtmlPart) [] ∧
      (classifyParts parts).textContent = lastContentD (parts.filter isPlainPart) [] ∧
      (classifyParts parts).attachments =
        (parts.filter isAttachPart).map (fun p => AttPart.mk p.contentType p.content) := by
  intro parts
  refine ⟨?_, ?_, ?_⟩
  · simpa [classifyParts] using foldl_classStep_html parts ⟨[], [], []⟩
  · simpa [classifyParts] using foldl_classStep_text parts ⟨[], [], []⟩
  · simpa [classifyParts] using foldl_classStep_atts parts ⟨[], [], []⟩

/-- Counterexample to C6 as stated: with two HTML and two plain parts the
loop answers the SECOND of each, not the first. -/
theorem classify_not_first_match :
    (classifyParts cexParts).htmlContent = cexLastHtml ∧
    ((cexParts.filter isHtmlPart).map Part.content).head? = some cexFirstHtml ∧
    cexLastHtml ≠ cexFirstHtml ∧
    (classifyParts cexParts).textContent = cexLastText ∧
    ((cexParts.filter isPlainPart).map Part.content).head? = some cexFirstText ∧
    cexLastText ≠ cexFirstText := by
  refine ⟨by decide, by decide, by decide, by decide, by decide, by decide⟩

/-- C7 (amended): whenever classification yields no HTML content and nonempty
text, the synthesized HTML body IS the naive newline-to-`<br>` substitution on
the unescaped text — the historical behavior the claim said never happens. -/
theorem fallback_is_naive_br :
    ∀ parts : List Part, parts.filter isHtmlPart = [] →
      (classifyParts parts).textContent ≠ [] →
      (withHtmlFallback (classifyParts parts)).htmlContent =
        jsReplaceNl brTag ((classifyParts parts).textContent) := by
  intro parts hf ht
  have hh : (classifyParts parts).htmlContent = [] := by
    have h := foldl_classStep_html parts ⟨[], [], []⟩
    simp only [classifyParts]
    rw [h, hf]
    rfl
  simp [withHtmlFallback, hh, ht]

/-- Witness for `fallback_is_naive_br` at a plain part holding markup. -/
theorem fallback_is_naive_br_witness :
    (cexScriptParts.filter isHtmlPart = [] ∧ (classifyParts cexScriptParts).textContent ≠ []) ∧
    (withHtmlFallback (classifyParts cexScriptParts)).htmlContent =
      jsReplaceNl brTag ((classifyParts cexScriptParts).textContent) :=
  ⟨⟨by decide, by decide⟩, fallback_is_naive_br cexScriptParts (by decide) (by decide)⟩

/-- Counterexample to C7 as stated: the synthesized body for a text containing
`<script>` is exactly the naive substitution, with `<` left unescaped. -/
theorem fallback_unescaped_script :
    (withHtmlFallback (classifyParts cexScriptParts)).htmlContent = cexScriptHtml ∧
    cexScriptHtml = jsReplaceNl brTag ((classifyParts cexScriptParts).textContent) ∧
    jsIncludes cexScriptHtml (('<') :: []) = true := by
  refine ⟨by decide, by decide, by decide⟩

/-- C8 (confirmed): under every interleaving of two concurrent creation calls
for the same fresh email, once both calls have completed they both answer the
same live row (the duplicate-key loser recovers by refetching), and exactly
one row for that email was added to the store. -/
theorem createPublic_concurrent_idempotent :
    ∀ (now : Nat) (e : List Char) (dom idA idB : String) (db0 : List TempRow)
      (sched : List Bool),
      (∀ r ∈ db0, r.email ≠ e) → idA ≠ idB →
      (∀ r ∈ db0, r.id ≠ idA) → (∀ r ∈ db0, r.id ≠ idB) →
      ∀ ra rb : Option TempRow,
        (runSched now e dom idA idB sched ⟨db0, .start, .start⟩).pcA = .done ra →
        (runSched now e dom idA idB sched ⟨db0, .start, .start⟩).pcB = .done rb →
        ∃ w : TempRow, ra = some w ∧ rb = some w ∧
          (runSched now e dom idA idB sched ⟨db0, .start, .start⟩).db = db0 ++ [w] ∧
          w.email = e ∧ w.expiresAt = now + ttl48 := by
  intro now e dom idA idB db0 sched hE hIds hFA hFB ra rb hra hrb
  have hinv := InvC_runSched now dom hE hFA hFB sched
  simp only [InvC, pcPre, pcWin, pcLose] at hinv
  rcases hinv with ⟨hdb, hA, hB⟩ | ⟨hdb, hA, hB⟩ | ⟨hdb, hA, hB⟩
  · rcases hA with hA | hA <;> rw [hra] at hA <;> cases hA
  · rcases hA with hA | hA
    · rw [hra] at hA; cases hA
    · rw [hra] at hA
      have hraw : ra = some (wRow now e dom idA) := by
        injection hA
      rcases hB with hB | hB | hB | hB
      · rw [hrb] at hB; cases hB
      · rw [hrb] at hB; cases hB
      · rw [hrb] at hB; cases hB
      · rw [hrb] at hB
        have hrbw : rb = some (wRow now e dom idA) := by
          injection hB
        exact ⟨wRow now e dom idA, hraw, hrbw, hdb, rfl, rfl⟩
  · -- here hA speaks about pcB (the winner) and hB about pcA (the loser)
    rcases hB with hB | hB | hB | hB
    · rw [hra] at hB; cases hB
    · rw [hra] at hB; cases hB
    · rw [hra] at hB; cases hB
    · rcases hA with hA | hA
      · rw [hrb] at hA; cases hA
      · rw [hra] at hB
        rw [hrb] at hA
        have hraw : ra = some (wRow now e dom idB) := by injection hB
        have hrbw : rb = some (wRow now e dom idB) := by injection hA
        exact ⟨wRow now e dom idB, hraw, hrbw, hdb, rfl, rfl⟩

/-- Witness for `createPublic_concurrent_idempotent` at the racy schedule. -/
theorem createPublic_concurrent_idempotent_witness :
    ∃ w : TempRow, (some cexWinRow : Option TempRow) = some w ∧
      (some cexWinRow : Option TempRow) = some w ∧
      (runSched 0 cexEmail cexDom cexIdA cexIdB cexSched ⟨[], .start, .start⟩).db = [] ++ [w] ∧
      w.email = cexEmail ∧ w.expiresAt = 0 + ttl48 :=
  createPublic_concurrent_idempotent 0 cexEmail cexDom cexIdA cexIdB [] cexSched
    (by decide) (by decide) (by decide) (by decide)
    (some cexWinRow) (some cexWinRow) (by decide) (by decide)

/-- C9 (amended): when no live row exists for the email, the creation
operation inserts and returns a fresh row expiring 48 hours later only if no
row with that email exists at all; when an expired row is still stored, the
insert hits the unique-email constraint and the handler answers that stored
expired row unchanged instead of a new address. -/
theorem createPublic_fresh_or_expired :
    ∀ (db : List TempRow) (now : Nat) (e : List Char) (dom newId : String),
      (∀ r ∈ db, r.email = e → r.expiresAt ≤ now) →
      ((∀ r ∈ db, r.email ≠ e) →
        createPublicEmail db now e dom newId =
          (db ++ [⟨newId, e, dom, now + ttl48⟩], some ⟨newId, e, dom, now + ttl48⟩)) ∧
      ((∃ r ∈ db, r.email = e) →
        (createPublicEmail db now e dom newId).1 = db ∧
        ∃ r0 ∈ db, r0.email = e ∧ r0.expiresAt ≤ now ∧
          (createPublicEmail db now e dom newId).2 = some r0) := by
  intro db now e dom newId hexp
  have hlive : db.filter (liveFor e now) = [] := by
    rw [List.filter_eq_nil]
    intro r hr
    simp only [liveFor, decide_eq_true_eq]
    rintro ⟨he, hlt⟩
    exact absurd hlt (Nat.not_lt.mpr (hexp r hr he))
  constructor
  · intro hne
    have hany := any_email_false hne
    simp [createPublicEmail, hlive, hany]
  · rintro ⟨r, hr, hre⟩
    have hany : db.any (fun r => decide (r.email = e)) = true := by
      rw [List.any_eq_true]
      exact ⟨r, hr, by simp [hre]⟩
    have hmem : r ∈ db.filter (fun r => decide (r.email = e)) :=
      List.mem_filter.mpr ⟨hr, by simp [hre]⟩
    cases hfe : db.filter (fun r => decide (r.email = e)) with
    | nil => rw [hfe] at hmem; cases hmem
    | cons r0 t =>
      have hr0f : r0 ∈ db.filter (fun r => decide (r.email = e)) := by
        rw [hfe]; exact List.mem_cons_self r0 t
      have hr0 := List.mem_filter.mp hr0f
      have hr0e : r0.email = e := by simpa using hr0.2
      refine ⟨by simp [createPublicEmail, hlive, hany], r0, hr0.1, hr0e,
        hexp r0 hr0.1 hr0e, by simp [createPublicEmail, hlive, hany, hfe]⟩

/-- Witness for `createPublic_fresh_or_expired`: a fresh insert on an empty
store, and the expired-row recovery on a store holding only an expired row. -/
theorem createPublic_fresh_or_expired_witness :
    (createPublicEmail [] 200 cexEmail cexDom cexIdNew =
      ([] ++ [⟨cexIdNew, cexEmail, cexDom, 200 + ttl48⟩],
        some ⟨cexIdNew, cexEmail, cexDom, 200 + ttl48⟩)) ∧
    ((createPublicEmail [cexOldRow] 200 cexEmail cexDom cexIdNew).1 = [cexOldRow] ∧
      ∃ r0 ∈ [cexOldRow], r0.email = cexEmail ∧ r0.expiresAt ≤ 200 ∧
        (createPublicEmail [cexOldRow] 200 cexEmail cexDom cexIdNew).2 = some r0) :=
  ⟨(createPublic_fresh_or_expired [] 200 cexEmail cexDom cexIdNew (by decide)).1 (by decide),
    (createPublic_fresh_or_expired [cexOldRow] 200 cexEmail cexDom cexIdNew (by decide)).2
      ⟨cexOldRow, by decide, by decide⟩⟩

/-- Counterexample to C9 as stated: with only an expired row stored, the
operation answers the expired row — not a new address with a fresh TTL. -/
theorem createPublic_returns_expired :
    createPublicEmail [cexOldRow] 200 cexEmail cexDom cexIdNew = ([cexOldRow], some cexOldRow) ∧
    cexOldRow.id ≠ cexIdNew ∧ cexOldRow.expiresAt ≠ 200 + ttl48 := by
  refine ⟨by decide, by decide, by decide⟩

/-- C10 (confirmed): a recipient containing `<` but no `<...>` group makes the
recipient-cleaning expression dereference a null match; the handler answers
500 — not 400 or 404 — and the store is untouched. -/
theorem webhook_angle_recipient_500 :
    ∀ (r rawBody : List Char) (sender subject : Option (List Char)) (db : Db)
      (now : Nat) (msgId : String) (atts : List AttRow) (msgOk : Bool) (attOk : Nat → Bool),
      jsIncludes r (('<') :: []) = true → jsMatchAngle r = none →
      webhookHandler (some r) sender subject rawBody db now msgId atts msgOk attOk = (500, db) := by
  intro r rawBody sender subject db now msgId atts msgOk attOk h1 h2
  have hne : r ≠ [] := by
    rintro rfl
    exact absurd h1 (by decide)
  have hc : cleanRecipient r = none := by
    simp [cleanRecipient, h1, h2]
  simp only [webhookHandler]
  rw [if_neg hne, hc]

/-- Witness for `webhook_angle_recipient_500` at the recipient `a<b`. -/
theorem webhook_angle_recipient_500_witness :
    (jsIncludes cexRecipient (('<') :: []) = true ∧ jsMatchAngle cexRecipient = none) ∧
    webhookHandler (some cexRecipient) none none cexRawPlain cexDbLive 0 cexMsg.id []
      true (fun _ => true) = (500, cexDbLive) :=
  ⟨⟨by decide, by decide⟩,
    webhook_angle_recipient_500 cexRecipient cexRawPlain none none cexDbLive 0 cexMsg.id []
      true (fun _ => true) (by decide) (by decide)⟩


end EmailSvc
